import Mathlib

/-!
Verification of the medichatbot repository: a shallow embedding of the
document pipeline (`src/helper.py`), the text splitter it configures, and
the Flask service layer (`app.py`), together with proofs of the spec's
claims about them.
-/

set_option maxHeartbeats 1000000

/-- Values stored in a Document's metadata mapping (python objects; `null`
models python `None`). -/
inductive MetaVal where
  | null
  | str (s : String)
  | int (n : Int)
deriving DecidableEq, Repr

/-- Model of `langchain.schema.Document`: page content plus a metadata mapping,
modelled as an association list with python-dict (unique key) usage. -/
structure Document where
  page_content : String
  metadata : List (String × MetaVal)
deriving DecidableEq, Repr

/-- Python `dict.get(k)`: the stored value, or `None` when the key is absent. -/
def metaGet (m : List (String × MetaVal)) (k : String) : MetaVal :=
  match m.find? (fun p => p.1 = k) with
  | some p => p.2
  | none => .null

/-- Embedding of `src/helper.py::filter_to_minimal_docs`: for each document, keep the
content and reduce the metadata to the single key `source` (whose value is
`doc.metadata.get("source")`). -/
def filter_to_minimal_docs (docs : List Document) : List Document :=
  docs.map (fun doc =>
    { page_content := doc.page_content
      metadata := [("source", metaGet doc.metadata "source")] })

-- ## Text splitter
-- `src/helper.py::text_split` delegates to langchain's
-- `RecursiveCharacterTextSplitter(chunk_size=500, chunk_overlap=20)`.  The
-- splitter itself is library code not included under `src/`; the definitions
-- below embed its implementation (default separators `["\n\n","\n"," ",""]`,
-- `keep_separator=True`, `strip_whitespace=True`, length function `len`).

/-- Configured chunk size (`chunk_size=500` in `src/helper.py`). -/
def CHUNK_SIZE : Nat := 500

/-- Configured overlap (`chunk_overlap=20` in `src/helper.py`). -/
def CHUNK_OVERLAP : Nat := 20

/-- The splitter's default separator priority list. -/
def SEPARATORS : List String := ["\n\n", "\n", " ", ""]

/-- Scan for a position at which `sub` is a prefix of the remainder. -/
def containsGo (sub : List Char) : List Char → Bool
  | [] => sub.isEmpty
  | c :: rest => sub.isPrefixOf (c :: rest) || containsGo sub rest

/-- Model of `re.search` of an escaped literal separator: substring occurrence. -/
def containsSubstring (s sub : String) : Bool :=
  containsGo sub.data s.data

/-- The separator-selection loop of `_split_text`: pick the first separator
that is `""` or occurs in the text; the remaining separators become the
recursion list. `none` means the loop fell through (no break). -/
def chooseSepGo : List String → String → Option (String × List String)
  | [], _ => none
  | s :: rest, text =>
    if s = "" then some ("", [])
    else if containsSubstring text s then some (s, rest)
    else chooseSepGo rest text

/-- Separator selection including the loop's fall-through default
(`separator = separators[-1]`, `new_separators = []`). -/
def chooseSep (seps : List String) (text : String) : String × List String :=
  match chooseSepGo seps text with
  | some r => r
  | none => (seps.getLastD "", [])

/-- A one-character string (a piece of `list(text)`). -/
def charStr (ch : Char) : String := String.mk [ch]

/-- Left-to-right scan of `re.split` on a literal separator: cut whenever the
(nonempty) separator is a prefix of the remainder.  The fuel starts at the
character count and each step consumes at least one character, so the
fuel-exhausted case is unreachable. -/
def splitCharsGo (sep : List Char) : Nat → List Char → List Char → List (List Char)
  | _, [], acc => [acc.reverse]
  | 0, l, acc => [acc.reverse ++ l]
  | fuel + 1, c :: rest, acc =>
    if sep.isPrefixOf (c :: rest) ∧ sep ≠ [] then
      acc.reverse :: splitCharsGo sep fuel (List.drop (sep.length - 1) rest) []
    else
      splitCharsGo sep fuel rest (c :: acc)

/-- Model of `re.split` on a literal separator, over character lists. -/
def splitChars (sep l : List Char) : List (List Char) :=
  splitCharsGo sep l.length l []

/-- Embedding of `_split_text_with_regex` with `keep_separator=True` on a literal
separator: split on the separator and re-attach each occurrence to the
front of the following piece, dropping empty pieces. -/
def splitKeep (text sep : String) : List String :=
  match (splitChars sep.data text.data).map String.mk with
  | [] => []
  | first :: rest => (first :: rest.map (fun p => sep ++ p)).filter (fun p => p ≠ "")

/-- Separator dispatch of `_split_text_with_regex`: an empty separator is falsy in python, so the
text is exploded into single characters; otherwise split keeping separators. -/
def splitWithSep (text sep : String) : List String :=
  if sep = "" then text.data.map charStr
  else splitKeep text sep

/-- Sum of the lengths of a list of strings (the splitter's running `total`
when the merge separator is empty). -/
def sumLen (l : List String) : Nat := (l.map String.length).sum

/-- Python `str.strip()`: remove leading and trailing whitespace. -/
def pyStrip (s : String) : String :=
  String.mk (((s.data.dropWhile Char.isWhitespace).reverse.dropWhile
      Char.isWhitespace).reverse)

/-- Concatenation of a list of strings (`"".join`, the merge separator being
empty because `keep_separator=True`). -/
def joinStrings : List String → String
  | [] => ""
  | s :: rest => s ++ joinStrings rest

/-- Embedding of `TextSplitter._join_docs` with an empty separator: join, strip
whitespace, and drop the result when it is empty. -/
def joinDocs (cur : List String) : Option String :=
  let text := pyStrip (joinStrings cur)
  if text = "" then none else some text

/-- The `while` loop of `_merge_splits` that pops leading pieces from the
current buffer until the retained total is within the overlap and adding the
next piece (of length `l`) would not exceed the chunk size.  `total` is the
summed length of `cur`, so the buffer is empty exactly when `total = 0` and
the empty case is the loop's exit. -/
def popOverlap : List String → Nat → Nat → List String × Nat
  | [], total, _ => ([], total)
  | c :: rest, total, l =>
    if total > CHUNK_OVERLAP ∨ (total + l > CHUNK_SIZE ∧ total > 0) then
      popOverlap rest (total - c.length) l
    else (c :: rest, total)

/-- The main loop of `TextSplitter._merge_splits` (empty separator): greedily
pack pieces into a buffer; when the next piece would overflow the chunk
size, emit the joined buffer and retain a trailing overlap. -/
def mergeGo : List String → List String → Nat → List String
  | [], cur, _ =>
    match joinDocs cur with
    | some doc => [doc]
    | none => []
  | d :: rest, cur, total =>
    if total + d.length > CHUNK_SIZE then
      if cur.isEmpty then
        mergeGo rest (cur ++ [d]) (total + d.length)
      else
        (match joinDocs cur with
         | some doc => [doc]
         | none => []) ++
        (let p := popOverlap cur total d.length
         mergeGo rest (p.1 ++ [d]) (p.2 + d.length))
    else
      mergeGo rest (cur ++ [d]) (total + d.length)

/-- Embedding of `TextSplitter._merge_splits` on a list of pieces. -/
def mergeSplits (splits : List String) : List String := mergeGo splits [] 0

/-- The piece-processing loop of `_split_text`: pieces shorter than the
chunk size accumulate into `good`; an oversized piece flushes the merged
accumulator and is either emitted whole (`noRec`, i.e. no finer separators
remain) or split recursively by `recur`. -/
def processSplits (recur : String → List String) (noRec : Bool) :
    List String → List String → List String
  | [], good => if good ≠ [] then mergeSplits good else []
  | s :: rest, good =>
    if s.length < CHUNK_SIZE then processSplits recur noRec rest (good ++ [s])
    else
      (if good ≠ [] then mergeSplits good else []) ++
      (if noRec then [s] else recur s) ++
      processSplits recur noRec rest []

/-- Embedding of `RecursiveCharacterTextSplitter._split_text`, fuelled by the recursion
depth.  Each recursive call uses a strict suffix of the separator list, so
`SEPARATORS.length` fuel is never exhausted. -/
def splitTextRec : Nat → List String → String → List String
  | 0, _, _ => []
  | fuel + 1, seps, text =>
    let sn := chooseSep seps text
    processSplits (splitTextRec fuel sn.2) sn.2.isEmpty (splitWithSep text sn.1) []

/-- Embedding of `RecursiveCharacterTextSplitter.split_text` with the configured
parameters. -/
def splitText (text : String) : List String :=
  splitTextRec SEPARATORS.length SEPARATORS text

/-- Embedding of `text_split` (`src/helper.py`), via `split_documents`/`create_documents`:
each document's content is split and every chunk inherits the parent's
metadata. -/
def text_split (docs : List Document) : List Document :=
  (docs.map (fun doc =>
    (splitText doc.page_content).map (fun chunk =>
      ({ page_content := chunk, metadata := doc.metadata } : Document)))).flatten

/-- The first `n` characters of a string (the "prefix of length n"). -/
def firstChars (s : String) (n : Nat) : String := String.mk (s.data.take n)

/-- The last `n` characters of a string (the "suffix of length n"). -/
def lastChars (s : String) (n : Nat) : String :=
  String.mk (s.data.drop (s.data.length - n))

/-- A 30-character word of `a`s. -/
def wordA : String := String.mk (List.replicate 30 'a')

/-- A 30-character word of `b`s. -/
def wordB : String := String.mk (List.replicate 30 'b')

/-- 56 alternating 30-character words separated by single spaces
(1735 characters): a concrete splitter input. -/
def cxText : String :=
  String.intercalate " " (List.replicate 28 (wordA ++ " " ++ wordB))

/-- A placeholder document used as a `getD` default. -/
def emptyDoc : Document := ⟨"", []⟩

/-- Sliding character windows of width 500 with stride 480: the closed form
of the splitter's output on text in which no separator occurs. -/
def windows (l : List Char) : List String :=
  if l = [] then []
  else if l.length ≤ CHUNK_SIZE then [String.mk l]
  else String.mk (l.take CHUNK_SIZE) :: windows (l.drop (CHUNK_SIZE - CHUNK_OVERLAP))
termination_by l.length
decreasing_by
  simp only [List.length_drop]
  simp only [CHUNK_SIZE, CHUNK_OVERLAP] at *
  omega

-- ## Service layer (`app.py`)

/-- Modelled from the spec: `src/prompt.py` is not included in the sources;
the spec describes only "a fixed system instruction" combined with the
retrieved context, so the prompt text is representative. -/
def system_prompt : String :=
  "You are a medical assistant for question-answering tasks. " ++
  "Use the retrieved context to answer the question. Context: {context}"

/-- The embeddings object built by
`src/helper.py::download_hugging_face_embeddings` (model name and device
pinning; the construction itself may fail, which the environment records). -/
structure Embeddings where
  modelName : String
  device : String
deriving DecidableEq, Repr

/-- Embedding of `src/helper.py::download_hugging_face_embeddings`: the constructed
embeddings value (CPU-pinned MiniLM). -/
def download_hugging_face_embeddings : Embeddings :=
  ⟨"sentence-transformers/all-MiniLM-L6-v2", "cpu"⟩

/-- The retriever produced by `docsearch.as_retriever(...)` in `app.py`. -/
structure Retriever where
  indexName : String
  embedding : Embeddings
  searchType : String
  k : Nat
deriving DecidableEq, Repr

/-- The chat model produced by `ChatGroq(...)` in `app.py`. -/
structure ChatModel where
  model : String
  apiKey : Option String
  temperature : Nat
deriving DecidableEq, Repr

/-- The RAG chain produced by
`create_retrieval_chain(retriever, create_stuff_documents_chain(...))`. -/
structure Chain where
  retriever : Retriever
  chatModel : ChatModel
  promptMessages : List (String × String)
deriving DecidableEq, Repr

/-- The module-level mutable globals of `app.py`
(`_rag_chain`, `_retriever`, `_chat_model`). -/
structure AppState where
  ragChain : Option Chain
  retriever : Option Retriever
  chatModel : Option ChatModel
deriving DecidableEq, Repr

/-- The observable initialization side effects of `get_rag_chain` and the
chain invocation in `chat`. -/
inductive Effect where
  | loadEmbeddings
  | connectPinecone
  | constructChatModel
  | invokeChain
deriving DecidableEq, Repr

/-- Outcomes of the external calls `get_rag_chain` can make, together with
import-time facts (`GROQ_AVAILABLE`, the captured `GROQ_API_KEY`) and the
current process environment.  `pineconeKeyNow` is what `os.getenv` would
return at call time; `get_rag_chain` never reads it (it checks only the
module-level value captured at import). -/
structure InitEnv where
  pineconeKeyNow : Option String
  groqKey : Option String
  groqAvailable : Bool
  embedResult : Except String Unit
  pineconeImportOk : Except String Unit
  connectResult : Except String Unit
  chainImportsOk : Except String Unit
  chatInitOk : Except String Unit
deriving Repr

/-- Python truthiness of the captured key: `not PINECONE_API_KEY` is true
when the variable is unset or empty. -/
def isFalsyKey : Option String → Bool
  | none => true
  | some s => s = ""

/-- The module-level capture `PINECONE_API_KEY = os.getenv("PINECONE_API_KEY")`
executed once at import time. -/
def moduleCapturedKey (environAtImport : String → Option String) : Option String :=
  environAtImport "PINECONE_API_KEY"

/-- Embedding of `app.py::get_rag_chain`: return the cached chain if present; otherwise
check the captured key and run the initialization steps in order, caching
the chain (and the intermediate `_retriever`/`_chat_model` globals) only at
the points the code assigns them.  Returns the result (`Except` models the
raised `RuntimeError` string), the updated globals, and the trace of
initialization side effects attempted. -/
def get_rag_chain (capturedKey : Option String) (env : InitEnv)
    (st : AppState) : Except String Chain × AppState × List Effect :=
  match st.ragChain with
  | some c => (.ok c, st, [])
  | none =>
    if isFalsyKey capturedKey then
      (.error "PINECONE_API_KEY is not set in environment.", st, [])
    else
      match env.embedResult with
      | .error e => (.error ("Failed to load embeddings: " ++ e), st,
          [.loadEmbeddings])
      | .ok _ =>
        let embeddings := download_hugging_face_embeddings
        match env.pineconeImportOk with
        | .error e => (.error ("Failed to import PineconeVectorStore: " ++ e),
            st, [.loadEmbeddings])
        | .ok _ =>
          match env.connectResult with
          | .error e =>
              (.error ("Failed to connect to Pinecone index 'medical-chatbot': "
                ++ e), st, [.loadEmbeddings, .connectPinecone])
          | .ok _ =>
            let retriever : Retriever :=
              ⟨"medical-chatbot", embeddings, "similarity", 3⟩
            let st1 := { st with retriever := some retriever }
            match env.chainImportsOk with
            | .error e =>
                (.error ("Failed to import LangChain chain builders: " ++ e),
                  st1, [.loadEmbeddings, .connectPinecone])
            | .ok _ =>
              if env.groqAvailable then
                match env.chatInitOk with
                | .error e =>
                    (.error ("Failed to initialize ChatGroq: " ++ e), st1,
                      [.loadEmbeddings, .connectPinecone, .constructChatModel])
                | .ok _ =>
                  let chatModel : ChatModel :=
                    ⟨"llama-3.3-70b-versatile", env.groqKey, 0⟩
                  let st2 := { st1 with chatModel := some chatModel }
                  let chain : Chain := ⟨retriever, chatModel,
                    [("system", system_prompt), ("human", "{input}")]⟩
                  (.ok chain, { st2 with ragChain := some chain },
                    [.loadEmbeddings, .connectPinecone, .constructChatModel])
              else
                (.error
                  "Groq model not available in this deployment (langchain_groq missing).",
                  st1, [.loadEmbeddings, .connectPinecone])

/-- Python values the chain's `invoke` may return. -/
inductive PyVal where
  | null
  | str (s : String)
  | int (n : Int)
  | dict (entries : List (String × PyVal))

mutual

/-- Python `repr` of a value (used by `str` on dicts). -/
def pyRepr : PyVal → String
  | .null => "None"
  | .str s => "'" ++ s ++ "'"
  | .int n => toString n
  | .dict entries => "\x7b" ++ String.intercalate ", " (pyReprEntries entries) ++ "\x7d"

/-- Rendering of each dict entry for `pyRepr`. -/
def pyReprEntries : List (String × PyVal) → List String
  | [] => []
  | (k, v) :: rest => ("'" ++ k ++ "': " ++ pyRepr v) :: pyReprEntries rest

end

/-- Python `str` of a value. -/
def pyStr : PyVal → String
  | .null => "None"
  | .str s => s
  | .int n => toString n
  | .dict entries => pyRepr (.dict entries)

/-- Python `dict.get(k)` on an invoke result. -/
def dictGet (entries : List (String × PyVal)) (k : String) : PyVal :=
  match entries.find? (fun p => p.1 = k) with
  | some p => p.2
  | none => .null

/-- An HTTP request to `/get`: the optional `msg` field of the form data and
of the query string. -/
structure Request where
  formMsg : Option String
  argsMsg : Option String
deriving DecidableEq, Repr

/-- Python `a or b` on an optional string against a fallback: the string if
present and non-empty (truthy), otherwise the fallback. -/
def pyOr (a : Option String) (b : String) : String :=
  match a with
  | some s => if s = "" then b else s
  | none => b

/-- Computation `msg = request.form.get("msg") or request.args.get("msg") or ""`. -/
def requestMsg (r : Request) : String :=
  pyOr r.formMsg (pyOr r.argsMsg "")

/-- A response body: either plain text or the `jsonify` error object
`{"error": ..., "details": ...}` (`details` absent on the 400 path). -/
inductive Body where
  | text (s : String)
  | jsonErr (error : String) (details : Option String)
deriving DecidableEq, Repr

/-- An HTTP response: status code and body. -/
structure Response where
  status : Nat
  body : Body
deriving DecidableEq, Repr

/-- Embedding of `app.py::chat` (the `/get` handler): validate the message, lazily obtain
the chain, invoke it (`invokeRes` is the outcome of the external
`rag_chain.invoke` call), and render the answer
(`response.get("answer") if isinstance(response, dict) else str(response)`,
then `str(answer)`).  Returns the response, the updated globals, and the
trace of effects. -/
def chat (capturedKey : Option String) (env : InitEnv)
    (invokeRes : Except String PyVal) (st : AppState) (req : Request) :
    Response × AppState × List Effect :=
  let msg := requestMsg req
  if msg = "" then
    (⟨400, .jsonErr "No message provided" none⟩, st, [])
  else
    match get_rag_chain capturedKey env st with
    | (.error e, st1, effs) =>
        (⟨500, .jsonErr "Initialization failed" (some e)⟩, st1, effs)
    | (.ok _, st1, effs) =>
      match invokeRes with
      | .error e =>
          (⟨500, .jsonErr "Chain execution failed" (some e)⟩, st1,
            effs ++ [.invokeChain])
      | .ok v =>
        let answer := match v with
          | .dict entries => dictGet entries "answer"
          | other => .str (pyStr other)
        (⟨200, .text (pyStr answer)⟩, st1, effs ++ [.invokeChain])

/-- A 600-character whitespace-free document used to witness the amended C4. -/
def xText : String := String.mk (List.replicate 600 'x')

/-- An environment in which every external call succeeds. -/
def envAllOk : InitEnv :=
  ⟨some "pk", some "gk", true, .ok (), .ok (), .ok (), .ok (), .ok ()⟩

/-- An environment in which every external call fails (used to show a cached
chain is returned without touching the environment). -/
def envAllFail : InitEnv :=
  ⟨some "now", none, false, .error "down", .error "down", .error "down",
    .error "down", .error "down"⟩

/-- The empty initial globals (`_rag_chain = _retriever = _chat_model = None`). -/
def st0 : AppState := ⟨none, none, none⟩

/-- The chain `get_rag_chain` builds under `envAllOk`. -/
def chainW : Chain :=
  ⟨⟨"medical-chatbot", download_hugging_face_embeddings, "similarity", 3⟩,
   ⟨"llama-3.3-70b-versatile", some "gk", 0⟩,
   [("system", system_prompt), ("human", "{input}")]⟩

/-- The globals after a successful initialization under `envAllOk`. -/
def stReady : AppState :=
  ⟨some chainW, some chainW.retriever, some chainW.chatModel⟩

-- ## Theorems

/-- C5: `filter_to_minimal_docs` maps each input document to a document with
the same content and metadata exactly `{source: metadata.get("source")}`;
a missing `source` key yields a null `source` (no error). -/
theorem C5_filter_minimal (docs : List Document) (i : Nat) (h : i < docs.length) :
    (filter_to_minimal_docs docs).length = docs.length ∧
    ∀ h2 : i < (filter_to_minimal_docs docs).length,
      ((filter_to_minimal_docs docs).get ⟨i, h2⟩).page_content
          = (docs.get ⟨i, h⟩).page_content ∧
      ((filter_to_minimal_docs docs).get ⟨i, h2⟩).metadata
          = [("source", metaGet (docs.get ⟨i, h⟩).metadata "source")] ∧
      ((docs.get ⟨i, h⟩).metadata.find? (fun p => p.1 = "source") = none →
        ((filter_to_minimal_docs docs).get ⟨i, h2⟩).metadata
          = [("source", MetaVal.null)]) := by
  refine ⟨by simp [filter_to_minimal_docs], fun h2 => ?_⟩
  refine ⟨by simp [filter_to_minimal_docs], by simp [filter_to_minimal_docs], ?_⟩
  intro hnone
  simp only [List.get_eq_getElem] at hnone
  simp [filter_to_minimal_docs, metaGet, hnone]

/-- Witness for C5 at a concrete document whose metadata has no `source` key. -/
theorem C5_filter_minimal_witness :
    (0 < [(⟨"hello", [("page", MetaVal.int 3)]⟩ : Document)].length) ∧
    ((filter_to_minimal_docs [⟨"hello", [("page", MetaVal.int 3)]⟩]).get
        ⟨0, by decide⟩).metadata = [("source", MetaVal.null)] := by
  refine ⟨by decide, ?_⟩
  exact ((C5_filter_minimal [⟨"hello", [("page", MetaVal.int 3)]⟩] 0 (by decide)).2
    (by decide)).2.2 (by decide)

theorem sumLen_nil : sumLen [] = 0 := rfl

theorem sumLen_cons (s : String) (l : List String) :
    sumLen (s :: l) = s.length + sumLen l := by
  simp [sumLen]

theorem sumLen_append (a b : List String) :
    sumLen (a ++ b) = sumLen a + sumLen b := by
  simp [sumLen]

theorem mk_length (l : List Char) : (String.mk l).length = l.length := rfl

theorem joinStrings_length (l : List String) :
    (joinStrings l).length = sumLen l := by
  induction l with
  | nil => simp [joinStrings, sumLen]
  | cons s rest ih => simp [joinStrings, sumLen_cons, String.length_append, ih]

theorem lengthDropWhileLe (p : Char → Bool) (l : List Char) :
    (l.dropWhile p).length ≤ l.length := by
  induction l with
  | nil => simp
  | cons c rest ih =>
    by_cases h : p c
    · rw [List.dropWhile_cons, if_pos h]
      exact ih.trans (by simp)
    · rw [List.dropWhile_cons, if_neg h]

theorem pyStrip_length_le (s : String) : (pyStrip s).length ≤ s.length := by
  show (((s.data.dropWhile Char.isWhitespace).reverse.dropWhile
      Char.isWhitespace).reverse).length ≤ s.data.length
  calc (((s.data.dropWhile Char.isWhitespace).reverse.dropWhile
        Char.isWhitespace).reverse).length
      = (((s.data.dropWhile Char.isWhitespace).reverse.dropWhile
        Char.isWhitespace)).length := by simp
    _ ≤ (s.data.dropWhile Char.isWhitespace).reverse.length :=
        lengthDropWhileLe _ _
    _ = (s.data.dropWhile Char.isWhitespace).length := by simp
    _ ≤ s.data.length := lengthDropWhileLe _ _

theorem joinDocs_length_le (cur : List String) (doc : String)
    (h : joinDocs cur = some doc) : doc.length ≤ sumLen cur := by
  simp only [joinDocs] at h
  by_cases he : pyStrip (joinStrings cur) = ""
  · simp [he] at h
  · rw [if_neg he] at h
    cases h
    exact (pyStrip_length_le _).trans (le_of_eq (joinStrings_length cur))

theorem popOverlap_spec (cur : List String) : ∀ total l : Nat,
    total = sumLen cur →
    (popOverlap cur total l).2 = sumLen (popOverlap cur total l).1 ∧
    (popOverlap cur total l).2 ≤ CHUNK_OVERLAP ∧
    ((popOverlap cur total l).2 + l ≤ CHUNK_SIZE ∨
      (popOverlap cur total l).2 = 0) := by
  induction cur with
  | nil =>
    intro total l hinv
    rw [sumLen_nil] at hinv
    subst hinv
    simp [popOverlap, sumLen_nil, CHUNK_OVERLAP]
  | cons c rest ih =>
    intro total l hinv
    rw [sumLen_cons] at hinv
    simp only [popOverlap]
    by_cases hc : total > CHUNK_OVERLAP ∨ (total + l > CHUNK_SIZE ∧ total > 0)
    · rw [if_pos hc]
      exact ih (total - c.length) l (by omega)
    · rw [if_neg hc]
      push_neg at hc
      refine ⟨hinv, by omega, by omega⟩

theorem mergeGo_bound (l : List String) : ∀ (cur : List String) (total : Nat),
    (∀ s ∈ l, s.length < CHUNK_SIZE) → total = sumLen cur →
    total ≤ CHUNK_SIZE → ∀ d ∈ mergeGo l cur total, d.length ≤ CHUNK_SIZE := by
  induction l with
  | nil =>
    intro cur total _ hinv hle d hd
    simp only [mergeGo] at hd
    cases hj : joinDocs cur with
    | none => rw [hj] at hd; simp at hd
    | some doc =>
      rw [hj] at hd
      simp at hd
      subst hd
      exact (joinDocs_length_le cur d hj).trans (hinv ▸ hle)
  | cons s rest ih =>
    intro cur total hl hinv hle d hd
    have hs : s.length < CHUNK_SIZE := hl s (by simp)
    have hrest : ∀ x ∈ rest, x.length < CHUNK_SIZE :=
      fun x hx => hl x (by simp [hx])
    simp only [mergeGo] at hd
    by_cases hof : total + s.length > CHUNK_SIZE
    · rw [if_pos hof] at hd
      by_cases hemp : cur.isEmpty
      · rw [if_pos hemp] at hd
        have hnil : cur = [] := List.isEmpty_iff.mp hemp
        subst hnil
        rw [sumLen_nil] at hinv
        exact ih ([] ++ [s]) (total + s.length) hrest
          (by rw [sumLen_append, sumLen_cons, sumLen_nil]; omega)
          (by omega) d hd
      · rw [if_neg hemp] at hd
        rcases List.mem_append.mp hd with h1 | h2
        · cases hj : joinDocs cur with
          | none => rw [hj] at h1; simp at h1
          | some doc =>
            rw [hj] at h1
            simp at h1
            subst h1
            exact (joinDocs_length_le cur d hj).trans (hinv ▸ hle)
        · obtain ⟨hpinv, hple, hpok⟩ := popOverlap_spec cur total s.length hinv
          refine ih _ _ hrest ?_ ?_ d h2
          · rw [sumLen_append, sumLen_cons, sumLen_nil]; omega
          · omega
    · rw [if_neg hof] at hd
      exact ih (cur ++ [s]) (total + s.length) hrest
        (by rw [sumLen_append, sumLen_cons, sumLen_nil]; omega)
        (by omega) d hd

theorem mergeSplits_bound (l : List String)
    (hl : ∀ s ∈ l, s.length < CHUNK_SIZE) :
    ∀ d ∈ mergeSplits l, d.length ≤ CHUNK_SIZE :=
  mergeGo_bound l [] 0 hl rfl (by simp [CHUNK_SIZE])

theorem goodFlush_bound (good : List String)
    (hgood : ∀ g ∈ good, g.length < CHUNK_SIZE) :
    ∀ c ∈ (if good ≠ [] then mergeSplits good else []), c.length ≤ CHUNK_SIZE := by
  by_cases hg : good = []
  · rw [if_neg (by simp [hg])]
    simp
  · rw [if_pos hg]
    exact mergeSplits_bound good hgood

theorem processSplits_bound (recur : String → List String) (noRec : Bool)
    (l : List String) : ∀ good : List String,
    (∀ s ∈ l, CHUNK_SIZE ≤ s.length →
      noRec = false ∧ ∀ c ∈ recur s, c.length ≤ CHUNK_SIZE) →
    (∀ g ∈ good, g.length < CHUNK_SIZE) →
    ∀ c ∈ processSplits recur noRec l good, c.length ≤ CHUNK_SIZE := by
  induction l with
  | nil =>
    intro good _ hgood c hc
    simp only [processSplits] at hc
    exact goodFlush_bound good hgood c hc
  | cons s rest ih =>
    intro good hbig hgood c hc
    simp only [processSplits] at hc
    by_cases hsl : s.length < CHUNK_SIZE
    · rw [if_pos hsl] at hc
      refine ih (good ++ [s]) (fun x hx h2 => hbig x (by simp [hx]) h2) ?_ c hc
      intro g hg
      rcases List.mem_append.mp hg with h1 | h2
      · exact hgood g h1
      · simp at h2; subst h2; exact hsl
    · rw [if_neg hsl] at hc
      obtain ⟨hnoRec, hrec⟩ := hbig s (by simp) (le_of_not_lt hsl)
      rcases List.mem_append.mp hc with h1 | h2
      · rcases List.mem_append.mp h1 with ha | hb
        · exact goodFlush_bound good hgood c ha
        · rw [hnoRec] at hb
          simp at hb
          exact hrec c hb
      · exact ih [] (fun x hx h2 => hbig x (by simp [hx]) h2) (by simp) c h2

theorem chooseSepGo_spec (text : String) : ∀ seps : List String, "" ∈ seps →
    ∃ p, chooseSepGo seps text = some p ∧ (p.2 = [] → p.1 = "") ∧
      (p.2 ≠ [] → "" ∈ p.2) := by
  intro seps
  induction seps with
  | nil => intro h; simp at h
  | cons s rest ih =>
    intro h
    by_cases hs : s = ""
    · subst hs
      exact ⟨("", []), by simp [chooseSepGo], by simp, by simp⟩
    · have hrest : "" ∈ rest := by
        rcases List.mem_cons.mp h with h1 | h1
        · exact absurd h1.symm hs
        · exact h1
      by_cases hcont : containsSubstring text s
      · refine ⟨(s, rest), by simp [chooseSepGo, hs, hcont], ?_, fun _ => hrest⟩
        intro h2
        have h3 : rest = [] := h2
        rw [h3] at hrest
        simp at hrest
      · obtain ⟨p, hp, h1, h2⟩ := ih hrest
        refine ⟨p, ?_, h1, h2⟩
        simp only [chooseSepGo, if_neg hs]
        rw [if_neg (by simp [hcont])]
        exact hp

theorem chooseSep_spec (seps : List String) (text : String) (h : "" ∈ seps) :
    ((chooseSep seps text).2 = [] → (chooseSep seps text).1 = "") ∧
    ((chooseSep seps text).2 ≠ [] → "" ∈ (chooseSep seps text).2) := by
  obtain ⟨p, hp, h1, h2⟩ := chooseSepGo_spec text seps h
  simp only [chooseSep, hp]
  exact ⟨h1, h2⟩

theorem charStr_length (ch : Char) : (charStr ch).length = 1 := rfl

theorem splitTextRec_bound : ∀ (fuel : Nat) (seps : List String)
    (text : String), "" ∈ seps →
    ∀ c ∈ splitTextRec fuel seps text, c.length ≤ CHUNK_SIZE := by
  intro fuel
  induction fuel with
  | zero => intro seps text _ c hc; simp [splitTextRec] at hc
  | succ fuel ih =>
    intro seps text hsep c hc
    simp only [splitTextRec] at hc
    obtain ⟨h1, h2⟩ := chooseSep_spec seps text hsep
    by_cases hemp : (chooseSep seps text).2 = []
    · have hsep1 : (chooseSep seps text).1 = "" := h1 hemp
      refine processSplits_bound _ _ _ [] ?_ (by simp) c hc
      intro s hs hbig
      rw [hsep1] at hs
      simp only [splitWithSep, if_pos rfl] at hs
      obtain ⟨ch, _, rfl⟩ := List.mem_map.mp hs
      rw [charStr_length] at hbig
      exact absurd hbig (by simp [CHUNK_SIZE])
    · have hmem : "" ∈ (chooseSep seps text).2 := h2 hemp
      refine processSplits_bound _ _ _ [] ?_ (by simp) c hc
      intro s hs hbig
      refine ⟨by simp [List.isEmpty_iff, hemp], ?_⟩
      exact fun x hx => ih (chooseSep seps text).2 s hmem x hx

/-- C3: with the configured chunk size 500 and overlap 20, every chunk
produced by `text_split` has content length at most 500 (the indivisible
oversized-token exception never occurs, because the empty separator splits
any text down to single characters). -/
theorem C3_chunk_size_bound (docs : List Document) (d : Document)
    (h : d ∈ text_split docs) : d.page_content.length ≤ 500 := by
  simp only [text_split, List.mem_flatten, List.mem_map] at h
  obtain ⟨l, ⟨doc, hdoc, rfl⟩, hd⟩ := h
  obtain ⟨chunk, hchunk, rfl⟩ := List.mem_map.mp hd
  simp only [splitText] at hchunk
  have := splitTextRec_bound SEPARATORS.length SEPARATORS doc.page_content
    (by simp [SEPARATORS]) chunk hchunk
  simpa [CHUNK_SIZE] using this

/-- Witness for C3 at a concrete document. -/
theorem C3_chunk_size_bound_witness :
    ((⟨"ab", []⟩ : Document) ∈ text_split [⟨"ab", []⟩]) ∧
    (Document.page_content ⟨"ab", []⟩).length ≤ 500 :=
  ⟨by decide, C3_chunk_size_bound [⟨"ab", []⟩] ⟨"ab", []⟩ (by decide)⟩

set_option maxRecDepth 12000 in
/-- C4 counterexample: on a document of 56 space-separated 30-character
words, `text_split` produces 4 chunks, and the interior adjacent chunks 1
and 2 share no text at all: the 20-character suffix of chunk 1 (all `b`s)
differs from the 20-character prefix of chunk 2 (all `a`s).  The merge loop
pops every buffered word while seeking an overlap of at most 20 characters,
because each 30-character word already exceeds the overlap. -/
theorem C4_overlap_counterexample :
    3 < (text_split [⟨cxText, []⟩]).length ∧
    lastChars ((text_split [⟨cxText, []⟩]).getD 1 emptyDoc).page_content 20 ≠
      firstChars ((text_split [⟨cxText, []⟩]).getD 2 emptyDoc).page_content 20 := by
  constructor
  · decide
  · decide

theorem containsGo_eq_false (c : Char) (cs : List Char) :
    ∀ l : List Char, (∀ x ∈ l, x ≠ c) → containsGo (c :: cs) l = false := by
  intro l
  induction l with
  | nil => intro _; rfl
  | cons x rest ih =>
    intro h
    have hx : x ≠ c := h x (by simp)
    simp only [containsGo, List.isPrefixOf, Bool.or_eq_false_iff]
    constructor
    · simp [Ne.symm hx]
    · exact ih (fun y hy => h y (by simp [hy]))

theorem chooseSep_nows (text : String)
    (hws : ∀ ch ∈ text.data, ch.isWhitespace = false) :
    chooseSep SEPARATORS text = ("", []) := by
  have hn : ∀ x ∈ text.data, x ≠ '\n' := by
    intro x hx he
    have := hws x hx
    rw [he] at this
    simp [Char.isWhitespace] at this
  have c1 : containsSubstring text "\n\n" = false :=
    containsGo_eq_false '\n' ['\n'] text.data hn
  have c2 : containsSubstring text "\n" = false :=
    containsGo_eq_false '\n' [] text.data hn
  have c3 : containsSubstring text " " = false := by
    refine containsGo_eq_false ' ' [] text.data ?_
    intro x hx he
    have := hws x hx
    rw [he] at this
    simp [Char.isWhitespace] at this
  simp [chooseSep, SEPARATORS, chooseSepGo, c1, c2, c3]

theorem mergeSplits_nil : mergeSplits [] = [] := rfl

theorem processSplits_small (recur : String → List String) (noRec : Bool) :
    ∀ (l good : List String), (∀ s ∈ l, s.length < CHUNK_SIZE) →
    processSplits recur noRec l good = mergeSplits (good ++ l) := by
  intro l
  induction l with
  | nil =>
    intro good _
    simp only [processSplits, List.append_nil]
    by_cases hg : good = []
    · rw [if_neg (by simp [hg]), hg, mergeSplits_nil]
    · rw [if_pos hg]
  | cons s rest ih =>
    intro good hl
    simp only [processSplits]
    rw [if_pos (hl s (by simp))]
    rw [ih (good ++ [s]) (fun x hx => hl x (by simp [hx]))]
    simp

theorem charStr_append (a b : List Char) :
    String.mk a ++ String.mk b = String.mk (a ++ b) := rfl

theorem joinStrings_charStr (c : List Char) :
    joinStrings (c.map charStr) = String.mk c := by
  induction c with
  | nil => rfl
  | cons ch rest ih =>
    simp only [List.map_cons, joinStrings, ih, charStr, charStr_append,
      List.singleton_append]

theorem dropWhile_no (p : Char → Bool) :
    ∀ l : List Char, (∀ x ∈ l, p x = false) → l.dropWhile p = l := by
  intro l
  induction l with
  | nil => intro _; rfl
  | cons x rest _ =>
    intro h
    rw [List.dropWhile_cons, if_neg (by simp [h x (by simp)])]

theorem pyStrip_nows (c : List Char)
    (hws : ∀ ch ∈ c, ch.isWhitespace = false) :
    pyStrip (String.mk c) = String.mk c := by
  simp only [pyStrip]
  rw [dropWhile_no _ c hws]
  rw [dropWhile_no _ c.reverse (fun x hx => hws x (List.mem_reverse.mp hx))]
  simp

theorem mk_eq_empty (c : List Char) : (String.mk c = "") ↔ c = [] := by
  constructor
  · intro h
    have := congrArg String.data h
    simpa using this
  · intro h
    subst h
    rfl

theorem joinDocs_chars (c : List Char)
    (hws : ∀ ch ∈ c, ch.isWhitespace = false) :
    joinDocs (c.map charStr) = if c = [] then none else some (String.mk c) := by
  simp only [joinDocs, joinStrings_charStr, pyStrip_nows c hws]
  by_cases hc : c = []
  · subst hc; simp
  · rw [if_neg (fun he => hc ((mk_eq_empty c).mp he)), if_neg hc]

theorem sumLen_charStr (c : List Char) : sumLen (c.map charStr) = c.length := by
  induction c with
  | nil => rfl
  | cons ch rest ih => simp [sumLen_cons, ih, charStr_length, Nat.add_comm]

theorem popOverlap_chars : ∀ c : List Char, CHUNK_OVERLAP ≤ c.length →
    popOverlap (c.map charStr) c.length 1
      = ((c.drop (c.length - CHUNK_OVERLAP)).map charStr, CHUNK_OVERLAP) := by
  intro c
  induction c with
  | nil => intro h; simp [CHUNK_OVERLAP] at h
  | cons x rest ih =>
    intro h
    simp only [List.map_cons, popOverlap]
    by_cases he : (x :: rest).length = CHUNK_OVERLAP
    · rw [if_neg (by simp only [CHUNK_OVERLAP, CHUNK_SIZE] at he ⊢; omega)]
      rw [show (x :: rest).length - CHUNK_OVERLAP = 0 by omega]
      simp [he]
    · have hlen : CHUNK_OVERLAP < (x :: rest).length :=
        Nat.lt_of_le_of_ne h (fun e => he e.symm)
      rw [if_pos (Or.inl hlen)]
      rw [show (x :: rest).length - (charStr x).length = rest.length by
        simp [charStr_length]]
      rw [ih (by simp only [List.length_cons] at hlen; omega)]
      rw [show (x :: rest).length - CHUNK_OVERLAP
          = (rest.length - CHUNK_OVERLAP) + 1 by
        simp only [List.length_cons] at hlen ⊢; omega]
      simp

theorem mergeGo_chars (l : List Char) : ∀ c : List Char,
    (∀ ch ∈ c, ch.isWhitespace = false) →
    (∀ ch ∈ l, ch.isWhitespace = false) →
    c.length ≤ CHUNK_SIZE →
    mergeGo (l.map charStr) (c.map charStr) c.length = windows (c ++ l) := by
  induction l with
  | nil =>
    intro c hwc _ hlen
    simp only [List.map_nil, mergeGo, joinDocs_chars c hwc, List.append_nil]
    by_cases hc : c = []
    · subst hc
      rw [windows]
      simp
    · rw [if_neg hc, windows, if_neg hc, if_pos hlen]
  | cons ch rest ih =>
    intro c hwc hwl hlen
    have hwch : ch.isWhitespace = false := hwl ch (by simp)
    have hwrest : ∀ x ∈ rest, x.isWhitespace = false :=
      fun x hx => hwl x (by simp [hx])
    simp only [List.map_cons, mergeGo, charStr_length]
    by_cases hof : c.length + 1 > CHUNK_SIZE
    · have h500 : c.length = CHUNK_SIZE := by omega
      have hc : c ≠ [] := by
        intro hnil
        rw [hnil] at h500
        simp [CHUNK_SIZE] at h500
      rw [if_pos hof]
      rw [if_neg (by simpa [List.isEmpty_iff] using hc)]
      rw [joinDocs_chars c hwc, if_neg hc]
      have hpop := popOverlap_chars c (by rw [h500]; decide)
      rw [hpop]
      have heq1 : (c.drop (c.length - CHUNK_OVERLAP)).map charStr ++ [charStr ch]
          = ((c.drop (c.length - CHUNK_OVERLAP)) ++ [ch]).map charStr := by
        simp
      have heq2 : CHUNK_OVERLAP + 1
          = ((c.drop (c.length - CHUNK_OVERLAP)) ++ [ch]).length := by
        simp only [List.length_append, List.length_drop, List.length_cons,
          List.length_nil]
        rw [h500]
        decide
      rw [heq1, heq2]
      rw [ih _ (by
          intro x hx
          rcases List.mem_append.mp hx with h1 | h1
          · exact hwc x (List.mem_of_mem_drop h1)
          · simp at h1; rw [h1]; exact hwch)
        hwrest
        (by
          simp only [List.length_append, List.length_drop, List.length_cons,
            List.length_nil]
          rw [h500]
          decide)]
      conv_rhs => rw [windows]
      rw [if_neg (by simp)]
      rw [if_neg (by
        simp only [List.length_append, List.length_cons]
        rw [h500]
        simp only [CHUNK_SIZE]
        omega)]
      rw [List.take_left' h500]
      rw [List.drop_append_of_le_length (by rw [h500]; decide)]
      rw [show c.length - CHUNK_OVERLAP = CHUNK_SIZE - CHUNK_OVERLAP from by
        rw [h500]]
      simp
    · rw [if_neg hof]
      have heq1 : c.map charStr ++ [charStr ch] = (c ++ [ch]).map charStr := by
        simp
      have heq2 : c.length + 1 = (c ++ [ch]).length := by simp
      rw [heq1, heq2]
      rw [ih (c ++ [ch]) (by
          intro x hx
          rcases List.mem_append.mp hx with h1 | h1
          · exact hwc x h1
          · simp at h1; rw [h1]; exact hwch)
        hwrest (by simp only [List.length_append, List.length_cons,
          List.length_nil]; omega)]
      simp

theorem splitText_nows (text : String)
    (hws : ∀ ch ∈ text.data, ch.isWhitespace = false) :
    splitText text = windows text.data := by
  have hcs := chooseSep_nows text hws
  show splitTextRec (3 + 1) SEPARATORS text = windows text.data
  simp only [splitTextRec, hcs]
  rw [processSplits_small _ _ _ _ (by
    intro s hs
    simp only [splitWithSep, if_pos rfl] at hs
    obtain ⟨x, _, rfl⟩ := List.mem_map.mp hs
    rw [charStr_length]
    decide)]
  simp only [List.nil_append, splitWithSep, if_pos rfl, mergeSplits]
  have := mergeGo_chars text.data [] (by simp) hws (by simp [CHUNK_SIZE])
  simpa using this

theorem windows_head (l : List Char) (h : l ≠ []) :
    (windows l).getD 0 "" = String.mk (l.take CHUNK_SIZE) := by
  rw [windows, if_neg h]
  by_cases hl : l.length ≤ CHUNK_SIZE
  · rw [if_pos hl]
    simp [List.take_of_length_le hl]
  · rw [if_neg hl]
    simp

theorem windows_chunk_overlap : ∀ (i : Nat) (l : List Char),
    i + 1 < (windows l).length →
    lastChars ((windows l).getD i "") CHUNK_OVERLAP
      = firstChars ((windows l).getD (i + 1) "") CHUNK_OVERLAP := by
  intro i
  induction i with
  | zero =>
    intro l h
    by_cases hnil : l = []
    · rw [hnil, windows] at h
      simp at h
    · by_cases hlen : l.length ≤ CHUNK_SIZE
      · rw [windows, if_neg hnil, if_pos hlen] at h
        simp at h
      · rw [windows, if_neg hnil, if_neg hlen] at h ⊢
        simp only [List.getD_cons_zero, List.getD_cons_succ]
        have hdne : l.drop (CHUNK_SIZE - CHUNK_OVERLAP) ≠ [] := by
          intro he
          rw [List.drop_eq_nil_iff] at he
          have : CHUNK_SIZE < l.length := Nat.lt_of_not_le hlen
          simp only [CHUNK_SIZE, CHUNK_OVERLAP] at he this
          omega
        rw [windows_head _ hdne]
        simp only [lastChars, firstChars]
        congr 1
        have h5 : CHUNK_SIZE ≤ l.length := Nat.le_of_lt (Nat.lt_of_not_le hlen)
        rw [List.length_take, Nat.min_eq_left h5]
        rw [List.take_take, Nat.min_eq_left (by decide)]
        have htd := List.take_drop (CHUNK_SIZE - CHUNK_OVERLAP) CHUNK_OVERLAP l
        rw [show CHUNK_SIZE - CHUNK_OVERLAP + CHUNK_OVERLAP = CHUNK_SIZE from by
          decide] at htd
        rw [htd]
  | succ j ihj =>
    intro l h
    by_cases hnil : l = []
    · rw [hnil, windows] at h
      simp at h
    · by_cases hlen : l.length ≤ CHUNK_SIZE
      · rw [windows, if_neg hnil, if_pos hlen] at h
        simp at h
      · rw [windows, if_neg hnil, if_neg hlen] at h ⊢
        simp only [List.getD_cons_succ]
        apply ihj
        simp only [List.length_cons] at h
        omega

theorem getD_map_doc (xs : List String) (m : List (String × MetaVal)) (i : Nat)
    (h : i < xs.length) :
    ((xs.map (fun chunk => (⟨chunk, m⟩ : Document))).getD i emptyDoc).page_content
      = xs.getD i "" := by
  rw [List.getD_eq_getElem?_getD, List.getD_eq_getElem?_getD, List.getElem?_map]
  rw [List.getElem?_eq_getElem h]
  rfl

/-- C4 amended: the claimed exact 20-character suffix/prefix overlap between
adjacent chunks holds for documents in which no separator occurs (content
with no whitespace characters); in general the overlap is best-effort only
(see the counterexample). -/
theorem C4_overlap_amended (content : String) (m : List (String × MetaVal))
    (i : Nat) (hws : ∀ ch ∈ content.data, ch.isWhitespace = false)
    (h : i + 1 < (text_split [⟨content, m⟩]).length) :
    lastChars ((text_split [⟨content, m⟩]).getD i emptyDoc).page_content
        CHUNK_OVERLAP
      = firstChars ((text_split [⟨content, m⟩]).getD (i + 1) emptyDoc).page_content
        CHUNK_OVERLAP := by
  have hts : text_split [⟨content, m⟩]
      = (splitText content).map (fun chunk => (⟨chunk, m⟩ : Document)) := by
    simp [text_split]
  rw [hts] at h ⊢
  rw [List.length_map] at h
  rw [getD_map_doc _ m i (by omega), getD_map_doc _ m (i + 1) (by omega)]
  rw [splitText_nows content hws]
  rw [splitText_nows content hws] at h
  exact windows_chunk_overlap i content.data h

set_option maxRecDepth 4000 in
/-- Witness for the amended C4 at a concrete whitespace-free document. -/
theorem C4_overlap_amended_witness :
    (0 + 1 < (text_split [⟨xText, []⟩]).length) ∧
    lastChars ((text_split [⟨xText, []⟩]).getD 0 emptyDoc).page_content
        CHUNK_OVERLAP
      = firstChars ((text_split [⟨xText, []⟩]).getD (0 + 1) emptyDoc).page_content
        CHUNK_OVERLAP := by
  have hws : ∀ ch ∈ xText.data, ch.isWhitespace = false := by
    intro ch hch
    rw [List.eq_of_mem_replicate hch]
    rfl
  have hlen : (text_split [⟨xText, []⟩]).length = 2 := by
    have hts : text_split [⟨xText, []⟩]
        = (splitText xText).map (fun chunk => (⟨chunk, []⟩ : Document)) := by
      simp [text_split]
    rw [hts, List.length_map, splitText_nows xText hws]
    show (windows (List.replicate 600 'x')).length = 2
    rw [windows, if_neg (by decide), if_neg (by decide)]
    rw [show List.drop (CHUNK_SIZE - CHUNK_OVERLAP) (List.replicate 600 'x')
        = List.replicate 120 'x' from by
      rw [List.drop_replicate]
      rfl]
    rw [windows, if_neg (by decide), if_pos (by decide)]
    rfl
  exact ⟨by rw [hlen]; decide,
    C4_overlap_amended xText [] 0 hws (by rw [hlen]; decide)⟩

/-- C6: `filter_to_minimal_docs` is idempotent. -/
theorem C6_filter_idempotent (docs : List Document) :
    filter_to_minimal_docs (filter_to_minimal_docs docs)
      = filter_to_minimal_docs docs := by
  simp only [filter_to_minimal_docs, List.map_map]
  apply List.map_congr_left
  intro doc _
  simp [metaGet]

theorem get_rag_chain_cached (k : Option String) (env : InitEnv)
    (st : AppState) (c : Chain) (h : st.ragChain = some c) :
    get_rag_chain k env st = (.ok c, st, []) := by
  unfold get_rag_chain
  rw [h]

theorem get_rag_chain_ok (k : Option String) (env : InitEnv) (st : AppState)
    (c : Chain) (st1 : AppState) (effs : List Effect)
    (h : get_rag_chain k env st = (.ok c, st1, effs)) :
    st1.ragChain = some c := by
  simp only [get_rag_chain] at h
  split at h
  · rename_i c0 heq
    simp only [Prod.mk.injEq, Except.ok.injEq] at h
    obtain ⟨h1, h2, _⟩ := h
    rw [← h2, heq, h1]
  · split at h
    · simp at h
    · split at h
      · simp at h
      · split at h
        · simp at h
        · split at h
          · simp at h
          · split at h
            · simp at h
            · split at h
              · split at h
                · simp at h
                · simp only [Prod.mk.injEq, Except.ok.injEq] at h
                  obtain ⟨h1, h2, _⟩ := h
                  rw [← h2, ← h1]
              · simp at h

/-- C1: once `get_rag_chain` has completed successfully, every later call
returns the same chain instance, leaves the globals unchanged, and performs
no initialization side effects. -/
theorem C1_chain_singleton (k : Option String) (env : InitEnv) (st : AppState)
    (c : Chain) (st1 : AppState) (effs : List Effect)
    (h : get_rag_chain k env st = (.ok c, st1, effs))
    (k2 : Option String) (env2 : InitEnv) :
    get_rag_chain k2 env2 st1 = (.ok c, st1, []) :=
  get_rag_chain_cached k2 env2 st1 c (get_rag_chain_ok k env st c st1 effs h)

/-- Witness for C1: after a successful first call, a second call (even with
every external service down and no key) returns the cached chain with no
effects. -/
theorem C1_chain_singleton_witness :
    get_rag_chain none envAllFail stReady = (.ok chainW, stReady, []) :=
  C1_chain_singleton (some "pk") envAllOk st0 chainW stReady
    [.loadEmbeddings, .connectPinecone, .constructChatModel] rfl none envAllFail

/-- C2: with a non-empty message and a ready chain, a failing chain
invocation makes `/get` return 500 `{"error": "Chain execution failed"}`,
the chain stays cached, and any later `get_rag_chain` call reuses it with
no re-initialization. -/
theorem C2_execution_failure (k : Option String) (env : InitEnv)
    (st : AppState) (req : Request) (c : Chain) (st1 : AppState)
    (effs : List Effect) (e : String)
    (hmsg : requestMsg req ≠ "")
    (hready : get_rag_chain k env st = (.ok c, st1, effs)) :
    chat k env (.error e) st req
      = (⟨500, .jsonErr "Chain execution failed" (some e)⟩, st1,
          effs ++ [.invokeChain])
    ∧ st1.ragChain = some c
    ∧ ∀ (k2 : Option String) (env2 : InitEnv),
        get_rag_chain k2 env2 st1 = (.ok c, st1, []) := by
  have hcache := get_rag_chain_ok k env st c st1 effs hready
  refine ⟨?_, hcache, fun k2 env2 => get_rag_chain_cached k2 env2 st1 c hcache⟩
  simp only [chat]
  rw [if_neg hmsg, hready]

/-- Witness for C2 at a concrete ready chain and failing invocation. -/
theorem C2_execution_failure_witness :
    chat (some "pk") envAllOk (.error "boom") st0 ⟨some "q", none⟩
      = (⟨500, .jsonErr "Chain execution failed" (some "boom")⟩, stReady,
          [.loadEmbeddings, .connectPinecone, .constructChatModel, .invokeChain])
    ∧ stReady.ragChain = some chainW
    ∧ get_rag_chain (some "pk2") envAllFail stReady = (.ok chainW, stReady, []) := by
  have h := C2_execution_failure (some "pk") envAllOk st0 ⟨some "q", none⟩
    chainW stReady [.loadEmbeddings, .connectPinecone, .constructChatModel]
    "boom" (by decide) rfl
  exact ⟨h.1, h.2.1, h.2.2 (some "pk2") envAllFail⟩

/-- C7: with the captured `PINECONE_API_KEY` unset and the chain
uninitialized, any non-empty question makes `/get` return 500 with details
containing "PINECONE_API_KEY is not set", and the globals stay unchanged
(the chain remains uninitialized). -/
theorem C7_missing_key (env : InitEnv) (st : AppState) (req : Request)
    (inv : Except String PyVal)
    (hst : st.ragChain = none) (hmsg : requestMsg req ≠ "") :
    chat none env inv st req
      = (⟨500, .jsonErr "Initialization failed"
          (some "PINECONE_API_KEY is not set in environment.")⟩, st, [])
    ∧ containsSubstring "PINECONE_API_KEY is not set in environment."
        "PINECONE_API_KEY is not set" = true
    ∧ st.ragChain = none := by
  refine ⟨?_, by decide, hst⟩
  simp only [chat]
  rw [if_neg hmsg]
  have hg : get_rag_chain none env st
      = (.error "PINECONE_API_KEY is not set in environment.", st, []) := by
    unfold get_rag_chain
    rw [hst]
    rfl
  rw [hg]

/-- Witness for C7 at a concrete request. -/
theorem C7_missing_key_witness :
    chat none envAllOk (.ok (.str "hi")) st0 ⟨some "q", none⟩
      = (⟨500, .jsonErr "Initialization failed"
          (some "PINECONE_API_KEY is not set in environment.")⟩, st0, [])
    ∧ containsSubstring "PINECONE_API_KEY is not set in environment."
        "PINECONE_API_KEY is not set" = true
    ∧ st0.ragChain = none :=
  C7_missing_key envAllOk st0 ⟨some "q", none⟩ (.ok (.str "hi")) rfl (by decide)

/-- C8: a request whose `msg` is empty or missing in both the form and the
query string is answered 400 `{"error": "No message provided"}` with the
globals untouched and no initialization or invocation effect. -/
theorem C8_empty_message (k : Option String) (env : InitEnv)
    (inv : Except String PyVal) (st : AppState) (req : Request)
    (hmsg : requestMsg req = "") :
    chat k env inv st req
      = (⟨400, .jsonErr "No message provided" none⟩, st, []) := by
  simp only [chat]
  rw [if_pos hmsg]

/-- Witness for C8 at a request with an empty form `msg` and no query `msg`. -/
theorem C8_empty_message_witness :
    chat (some "pk") envAllOk (.ok (.str "x")) st0 ⟨some "", none⟩
      = (⟨400, .jsonErr "No message provided" none⟩, st0, []) :=
  C8_empty_message (some "pk") envAllOk (.ok (.str "x")) st0 ⟨some "", none⟩
    (by decide)

/-- C9: with a ready chain and a non-empty question, an invoke result that is
a dict without an `"answer"` key renders as HTTP 200 with body `"None"`, and
a non-dict invoke result renders as HTTP 200 with its `str` rendering. -/
theorem C9_answer_rendering (k : Option String) (env : InitEnv)
    (st : AppState) (req : Request) (c : Chain) (st1 : AppState)
    (effs : List Effect)
    (hmsg : requestMsg req ≠ "")
    (hready : get_rag_chain k env st = (.ok c, st1, effs)) :
    (∀ entries : List (String × PyVal),
      entries.find? (fun p => p.1 = "answer") = none →
      chat k env (.ok (.dict entries)) st req
        = (⟨200, .text "None"⟩, st1, effs ++ [.invokeChain]))
    ∧ (∀ v : PyVal, (∀ entries, v ≠ .dict entries) →
      chat k env (.ok v) st req
        = (⟨200, .text (pyStr v)⟩, st1, effs ++ [.invokeChain])) := by
  constructor
  · intro entries hfind
    simp only [chat]
    rw [if_neg hmsg, hready]
    simp only [dictGet, hfind]
    rfl
  · intro v hv
    simp only [chat]
    rw [if_neg hmsg, hready]
    cases v with
    | null => rfl
    | str s => rfl
    | int n => rfl
    | dict entries => exact absurd rfl (hv entries)

/-- Witness for C9: a dict result without `"answer"` yields body `"None"`; a
plain string result yields its own text. -/
theorem C9_answer_rendering_witness :
    chat (some "pk") envAllOk (.ok (.dict [("result", PyVal.str "hi")])) st0
        ⟨some "q", none⟩
      = (⟨200, .text "None"⟩, stReady,
          [.loadEmbeddings, .connectPinecone, .constructChatModel, .invokeChain])
    ∧ chat (some "pk") envAllOk (.ok (.str "X")) st0 ⟨some "q", none⟩
      = (⟨200, .text "X"⟩, stReady,
          [.loadEmbeddings, .connectPinecone, .constructChatModel, .invokeChain]) := by
  have h := C9_answer_rendering (some "pk") envAllOk st0 ⟨some "q", none⟩
    chainW stReady [.loadEmbeddings, .connectPinecone, .constructChatModel]
    (by decide) rfl
  exact ⟨h.1 [("result", PyVal.str "hi")] rfl,
    h.2 (.str "X") (fun entries he => PyVal.noConfusion he)⟩

/-- C10: `get_rag_chain` validates the module-level key captured at import
time, not the current environment: if the key was unset at import, every
retry raises the same error even when the process environment now carries a
value. -/
theorem C10_import_time_key (environAtImport : String → Option String)
    (h : environAtImport "PINECONE_API_KEY" = none)
    (env : InitEnv) (st : AppState) (hst : st.ragChain = none)
    (kNow : String) :
    get_rag_chain (moduleCapturedKey environAtImport)
        { env with pineconeKeyNow := some kNow } st
      = (.error "PINECONE_API_KEY is not set in environment.", st, []) := by
  unfold get_rag_chain moduleCapturedKey
  rw [hst, h]
  rfl

/-- Witness for C10: the key was absent at import and is set now; the retry
still fails with the same message. -/
theorem C10_import_time_key_witness :
    get_rag_chain (moduleCapturedKey (fun _ => none))
        { envAllOk with pineconeKeyNow := some "later-key" } st0
      = (.error "PINECONE_API_KEY is not set in environment.", st0, []) :=
  C10_import_time_key (fun _ => none) rfl envAllOk st0 rfl "later-key"
